import Mathlib

/-!
Verification development for the proposer/seniority collection pipeline
(`Data_Collection/fetch_bill_seniority3.py`).

The Python source is shallowly embedded: pure parsing and aggregation
logic is translated into executable Lean definitions over `List Char` /
`String`; network effects (HTTP fetches) are abstracted as oracle
functions returning `Except`, so an exception raised by `fetch` is an
`Except.error` value.
-/

namespace Seniority

/-- Python `\s` over the whitespace characters relevant to this source
(ASCII whitespace). -/
def isSpaceChar (c : Char) : Bool :=
  c == ' ' || c == '\t' || c == '\n' || c == '\r' || c == '\x0b' || c == '\x0c'

/-- Python `\d` restricted to ASCII digits. -/
def isDigitChar (c : Char) : Bool :=
  '0' ≤ c && c ≤ '9'

/-- Maximal digit run at the head of the list, with the remainder. -/
def takeDigits : List Char → List Char × List Char
  | [] => ([], [])
  | c :: cs =>
    if isDigitChar c then
      let (ds, rest) := takeDigits cs
      (c :: ds, rest)
    else ([], c :: cs)

/-- Drop leading whitespace. -/
def skipSpaces : List Char → List Char
  | [] => []
  | c :: cs => if isSpaceChar c then skipSpaces cs else c :: cs

/-- Numeric value of a digit run. -/
def digitsToNat (ds : List Char) : Nat :=
  ds.foldl (fun acc c => acc * 10 + (c.toNat - '0'.toNat)) 0

/-- Is `needle` a prefix of `hay`? -/
def isPrefixList : List Char → List Char → Bool
  | [], _ => true
  | _ :: _, [] => false
  | a :: as, b :: bs => a == b && isPrefixList as bs

/-- Python `needle in hay` substring containment. -/
def containsSub (needle : List Char) : List Char → Bool
  | [] => isPrefixList needle []
  | c :: cs => isPrefixList needle (c :: cs) || containsSub needle cs

/-- Try to match the regex `(\d+)\s*선` anchored at the head of `cs`,
returning the captured number.  Mirrors `re` semantics: the greedy digit
run must be followed by optional whitespace and the literal `선`. -/
def matchSeonAt (cs : List Char) : Option Nat :=
  let (ds, rest) := takeDigits cs
  if ds.isEmpty then none
  else
    match skipSpaces rest with
    | c :: _ => if c == '선' then some (digitsToNat ds) else none
    | [] => none

/-- Python `re.search(r"(\d+)\s*선", text)`: leftmost match of the pattern. -/
def searchNumSeon : List Char → Option Nat
  | [] => none
  | c :: cs =>
    match matchSeonAt (c :: cs) with
    | some n => some n
    | none => searchNumSeon cs

/-- Constant `KOR_SEN_MAP` from the source, in Python dict insertion order. -/
def KOR_SEN_MAP : List (String × Nat) :=
  [("초선", 1), ("재선", 2), ("삼선", 3), ("사선", 4), ("오선", 5),
   ("육선", 6), ("칠선", 7), ("팔선", 8), ("구선", 9), ("십선", 10)]

/-- Raw seniority extraction from profile text: the digit pattern
`(\d+)\s*선` first, then the first Korean ordinal token of
`KOR_SEN_MAP` contained in the text. -/
def extractRawSeniority (text : List Char) : Option Nat :=
  match searchNumSeon text with
  | some n => some n
  | none => (KOR_SEN_MAP.find? (fun kv => containsSub kv.1.data text)).map (·.2)

/-- The `future_terms` accumulation from `parse_member_seniority`:
`base_assembly <= 20` counts both `제21대` and `제22대`; `== 21` counts
only `제22대`; otherwise nothing. -/
def futureTerms (base : Int) (has21 has22 : Bool) : Nat :=
  if base ≤ 20 then
    (if has21 then 1 else 0) + (if has22 then 1 else 0)
  else if base = 21 then
    (if has22 then 1 else 0)
  else 0

/-- The arithmetic core of `parse_member_seniority` applied to the
profile text already selected from the page: extract the raw count,
subtract future-session markers, clamp below at 1. -/
def seniorityFromText (text : List Char) (base : Int) : Option Int :=
  match extractRawSeniority text with
  | none => none
  | some raw =>
    let has21 := containsSub "제21대".data text
    let has22 := containsSub "제22대".data text
    let adjusted : Int := (raw : Int) - (futureTerms base has21 has22 : Int)
    some (if adjusted < 1 then 1 else adjusted)

/-- The parts of a member profile page that `parse_member_seniority`
inspects: the `<dd>` text following `<dt>당선횟수</dt>` when that `dt/dd`
pair exists, and the text of the new-layout
`.jeonzik_left_info .profile_info dl` block when it exists. -/
structure MemberPage where
  dangseonText : Option (List Char)
  newLayoutText : Option (List Char)

/-- Text selection of `parse_member_seniority`: the old-layout `dd` text
first; if that is missing or empty, the new-layout block text; missing
blocks contribute the empty text. -/
def selectProfileText (p : MemberPage) : List Char :=
  let t1 := p.dangseonText.getD []
  if t1.isEmpty then p.newLayoutText.getD [] else t1

/-- Model of `parse_member_seniority(member_url, base_assembly)`.  The uncached
fetch of the member page is abstracted as its outcome: an exception
(caught by the function's `except` clause, yielding `none`) or the
fetched page. -/
def parse_member_seniority (fetched : Except String MemberPage) (base : Int) :
    Option Int :=
  match fetched with
  | .error _ => none
  | .ok p =>
    let text := selectProfileText p
    if text.isEmpty then none else seniorityFromText text base

/-- Floor of a rational via floored integer division (denominator is
positive). -/
def qfloor (q : ℚ) : ℤ :=
  Int.fdiv q.num q.den

/-- Round a rational to the nearest integer, ties to even — the
behaviour of Python `round` at integer granularity. -/
def roundHalfEven (q : ℚ) : ℤ :=
  let f := qfloor q
  let r := q - (f : ℚ)
  if r < 1 / 2 then f
  else if 1 / 2 < r then f + 1
  else if f % 2 = 0 then f else f + 1

/-- Python `round(x, 2)`: two-decimal rounding, modelled exactly on
rationals. -/
def round2 (q : ℚ) : ℚ :=
  (roundHalfEven (100 * q) : ℚ) / 100

/-- The expression `round(sum(seniorities) / len(seniorities), 2) if seniorities else
None` from `process_one_bill`. -/
def avgSeniority (l : List Int) : Option ℚ :=
  if l.isEmpty then none
  else some (round2 ((l.sum : ℚ) / (l.length : ℚ)))

/-- Code-point lexicographic comparison of character lists — the string
ordering Python's `sorted` uses. -/
def lexLe : List Char → List Char → Bool
  | [], _ => true
  | _ :: _, [] => false
  | a :: as, b :: bs => if a = b then lexLe as bs else decide (a < b)

/-- Python string ordering, as a relation on `String`. -/
def strLe (a b : String) : Prop := lexLe a.data b.data = true

instance : DecidableRel strLe :=
  fun a b => inferInstanceAs (Decidable (lexLe a.data b.data = true))

/-- The expression `sorted(set([p for p in parties if p]))` from `process_one_bill`:
sorted distinct non-empty party labels. -/
def uniqueParties (parties : List String) : List String :=
  List.insertionSort strLe ((parties.filter (fun p => p != "")).dedup)

/-- One output row, keyed by the bill id; `none` fields are the absent
(`None` / missing-key) values of the Python dicts. -/
structure BillRecord where
  bill_id : String
  num_proposers : Option Nat
  avg_seniority : Option ℚ
  parties : Option String
  error : Option String
deriving DecidableEq

/-- Outcome of `collect_members_from_popup(bill_id)` as seen by
`process_one_bill`: the member profile links, the party labels and the
number of proposers, or the exception it raised. -/
abbrev CollectOracle := String → Except String (List String × List String × Nat)

/-- Outcome of `parse_member_seniority` for one member link and base
assembly (the function itself never raises: it returns `None` on any
failure). -/
abbrev SenOracle := String → Int → Option Int

/-- Model of `process_one_bill(bill_id, base_assembly)`: aggregate one bill; any
exception from the collection step is caught here and produces a record
with absent metrics plus the error message. -/
def process_one_bill (collect : CollectOracle) (sen : SenOracle)
    (bid : String) (base : Int) : BillRecord :=
  match collect bid with
  | .error e => ⟨bid, none, none, none, some e⟩
  | .ok (links, parties, num) =>
    let ups := uniqueParties parties
    let sens := links.filterMap (fun url => sen url base)
    ⟨bid, some num, avgSeniority sens,
      if ups.isEmpty then none else some (String.intercalate ", " ups), none⟩

/-- The cutover bill id from the source configuration block. -/
def FIRST_21_BILL_ID : String := "PRC_K2E0H0I6U0X1T1J1Y3J9R1K8R0L6P0"

/-- The assembly-context assignment of `main`: `bill_ids.index(FIRST_21_BILL_ID)`
(or `len(bill_ids)` when absent, which is exactly `List.findIdx`), then
`21 if i >= first21_idx else 20`. -/
def baseAssembly (ids : List String) (i : Nat) : Int :=
  if ids.findIdx (fun b => b == FIRST_21_BILL_ID) ≤ i then 21 else 20

/-- The driver loop of `main`: one `process_one_bill` call per input id, in
input order, with the positional assembly context. -/
def runPipeline (collect : CollectOracle) (sen : SenOracle)
    (ids : List String) : List BillRecord :=
  ids.enum.map (fun p => process_one_bill collect sen p.2 (baseAssembly ids p.1))

/-! ### Popup locator (`build_proposer_popup_url_from_detail`) -/

/-- The single-quote character, written by code point to keep the
source ASCII-clean. -/
def quoteChar : Char := Char.ofNat 39

/-- Maximal run of non-quote characters, with the remainder. -/
def takeUntilQuote : List Char → List Char × List Char
  | [] => ([], [])
  | c :: cs =>
    if c == quoteChar then ([], c :: cs)
    else
      let (r, rest) := takeUntilQuote cs
      (c :: r, rest)

/-- Match `key:\s*'(content)'` anchored at the head: the literal key,
optional whitespace, a quoted run of non-quote characters (required
non-empty when `minOne` is true, as for `[^']+`). -/
def matchQuotedAfter (key : List Char) (minOne : Bool) (cs : List Char) :
    Option (List Char) :=
  if isPrefixList key cs then
    match skipSpaces (cs.drop key.length) with
    | q :: rest =>
      if q == quoteChar then
        let (content, rest2) := takeUntilQuote rest
        match rest2 with
        | q2 :: _ =>
          if q2 == quoteChar && (!minOne || !content.isEmpty) then some content
          else none
        | [] => none
      else none
    | [] => none
  else none

/-- Python `re.search` of a `key:\s*'...'` pattern: leftmost match. -/
def searchQuoted (key : List Char) (minOne : Bool) : List Char → Option (List Char)
  | [] => none
  | c :: cs =>
    match matchQuotedAfter key minOne (c :: cs) with
    | some r => some r
    | none => searchQuoted key minOne cs

/-- Python `re.search(r"billNo:\s*'([^']+)'", onclick)`. -/
def searchBillNo (s : String) : Option String :=
  (searchQuoted "billNo:".data true s.data).map String.mk

/-- Python `re.search(r"billName:\s*'([^']*)'", onclick)`. -/
def searchBillName (s : String) : Option String :=
  (searchQuoted "billName:".data false s.data).map String.mk

/-- The part of the bill detail page that the popup locator inspects:
the `onclick` attribute of the `a.icon_list` anchor whose handler calls
`Navigation.bill.popup.billProposer`, when such an anchor exists. -/
structure DetailPage where
  onclick : Option String

/-- The minimal popup URL built from the bill id alone. -/
def popupBase (bid : String) : String :=
  "https://likms.assembly.go.kr/bill/bi/popup/billProposer.do?billId=" ++ bid

/-- URL construction of `build_proposer_popup_url_from_detail` once the
detail page has been fetched.  The URL always starts from the bill id
passed in (the `billId` captured from the onclick is parsed but unused
in the source); `billNo` / `billName` are appended only when found
non-empty, and a missing anchor falls back to the minimal URL. -/
def build_popup_url_from_page (bid : String) (page : DetailPage) : String :=
  match page.onclick with
  | none => popupBase bid
  | some oc =>
    let bill_no := (searchBillNo oc).getD ""
    let bill_nm := (searchBillName oc).getD ""
    let u1 := popupBase bid
    let u2 := if bill_no != "" then u1 ++ "&billNo=" ++ bill_no else u1
    if bill_nm != "" then u2 ++ "&billName=" ++ bill_nm else u2

/-- Model of `build_proposer_popup_url_from_detail(bill_id)`.  The
function starts with `fetch(detail_url)`, which is outside any
`try`/`except`: its outcome is passed in, and a fetch exception (raised
after the retries are exhausted) propagates out of the function —
nothing is produced.  A fetched page maps to the pure URL
construction. -/
def build_proposer_popup_url_from_detail (bid : String)
    (fetched : Except String DetailPage) : Except String String :=
  match fetched with
  | .error e => .error e
  | .ok page => .ok (build_popup_url_from_page bid page)

/-! ### Paginated scraper (`proposer_soup`, `parse_total_pages`,
`collect_members_from_popup`) -/

/-- Match `/\s*(\d+)\s*페이지` anchored at the head. -/
def matchPagesAt : List Char → Option Nat
  | [] => none
  | c :: cs =>
    if c == '/' then
      let (ds, rest) := takeDigits (skipSpaces cs)
      if ds.isEmpty then none
      else if isPrefixList "페이지".data (skipSpaces rest) then
        some (digitsToNat ds)
      else none
    else none

/-- Python `re.search(r"/\s*(\d+)\s*페이지", value)`: leftmost match. -/
def searchPagesPattern : List Char → Option Nat
  | [] => none
  | c :: cs =>
    match matchPagesAt (c :: cs) with
    | some n => some n
    | none => searchPagesPattern cs

/-- Match `fnSearch\((\d+)\)` anchored at the head. -/
def matchFnSearchAt (cs : List Char) : Option Nat :=
  if isPrefixList "fnSearch(".data cs then
    let (ds, rest) := takeDigits (cs.drop 9)
    if ds.isEmpty then none
    else
      match rest with
      | c :: _ => if c == ')' then some (digitsToNat ds) else none
      | [] => none
  else none

/-- Python `re.search(r"fnSearch\((\d+)\)", onclick)`: leftmost match. -/
def searchFnSearch : List Char → Option Nat
  | [] => none
  | c :: cs =>
    match matchFnSearchAt (c :: cs) with
    | some n => some n
    | none => searchFnSearch cs

/-- The parts of one popup listing page that the scraper inspects. -/
structure PopupPage where
  /-- whether `ul.member_list_img li a[href*=...]` selects anything —
  the member-list marker used to validate a pagination candidate -/
  valid : Bool
  /-- hrefs of the member profile links -/
  memberHrefs : List String
  /-- texts of the `p.jdang` party labels -/
  partyLabels : List String
  /-- value of the hidden pager input, when that input exists -/
  pagerHidden : Option String
  /-- onclick strings of the numbered navigation links -/
  navOnclicks : List String
deriving DecidableEq

/-- Page numbers referenced by the navigation links. -/
def navNums (p : PopupPage) : List Nat :=
  p.navOnclicks.filterMap (fun s => searchFnSearch s.data)

/-- Model of `parse_total_pages(soup)`: the hidden pager field first (when it
matches the pages pattern), else the maximum navigation-link page
number, else 1. -/
def parse_total_pages (p : PopupPage) : Nat :=
  match (match p.pagerHidden with
         | some v => searchPagesPattern v.data
         | none => none) with
  | some n => n
  | none =>
    match navNums p with
    | [] => 1
    | n :: ns => ns.foldl Nat.max n

/-- A popup endpoint: URL to fetch outcome (an `Except.error` is an
exception raised by `fetch` after its retries). -/
abbrev Site := String → Except String PopupPage

/-- The ordered pagination-parameter candidates from `proposer_soup`. -/
def PAGE_PARAM_CANDIDATES : List String :=
  ["pageIndex", "pageNo", "page", "currPage", "pageNum"]

/-- The page URL built from the base URL, a candidate name and a page number. -/
def pageURL (base cand : String) (page : Nat) : String :=
  base ++ "&" ++ cand ++ "=" ++ toString page

/-- One candidate probe: the fetched page when the fetch succeeded and
the page carries the member-list marker, else `none` (a fetch exception
is swallowed by the candidate loop's `except: continue`). -/
def fetchValid (site : Site) (url : String) : Option PopupPage :=
  match site url with
  | .ok s => if s.valid then some s else none
  | .error _ => none

/-- The candidate loop of `proposer_soup`: first candidate whose page
validates, with that page. -/
def findValidCandidate (site : Site) (base : String) (page : Nat) :
    Option (String × PopupPage) :=
  PAGE_PARAM_CANDIDATES.findSome?
    (fun c => (fetchValid site (pageURL base c page)).map (fun s => (c, s)))

/-- Model of `proposer_soup(bill_id, base_url, page)`: the candidate loop, then
the fallback fetch of the bare base URL (whose own exception
propagates). -/
def proposer_soup (site : Site) (base : String) (page : Nat) :
    Except String PopupPage :=
  match findValidCandidate site base page with
  | some cs => .ok cs.2
  | none => site base

/-- The pagination parameter a given page ends up being fetched with
(`none` when the candidate loop is exhausted and the bare base URL is
used). -/
def chosenParam (site : Site) (base : String) (page : Nat) : Option String :=
  (findValidCandidate site base page).map (·.1)

/-- Whether one candidate validates for one page number. -/
def candValid (site : Site) (base : String) (c : String) (page : Nat) : Bool :=
  (fetchValid site (pageURL base c page)).isSome

/-- The total page count the scraper derives from page 1. -/
def totalPagesFor (site : Site) (base : String) : Nat :=
  match proposer_soup site base 1 with
  | .ok s => parse_total_pages s
  | .error _ => 1

/-- Model of `collect_members_from_popup` from the discovered popup base URL:
page 1, then pages `2..total_pages`, concatenating links and labels in
page order; the proposer count is the number of links. -/
def collect_members_from_popup (site : Site) (base : String) :
    Except String (List String × List String × Nat) := do
  let s1 ← proposer_soup site base 1
  let total := parse_total_pages s1
  let rest ← (List.range' 2 (total - 1)).mapM (fun p => proposer_soup site base p)
  let soups := s1 :: rest
  let links := (soups.map (·.memberHrefs)).flatten
  let parties := (soups.map (·.partyLabels)).flatten
  pure (links, parties, links.length)

/-- A concrete popup endpoint on which the first valid pagination
candidate differs between page 1 (`pageIndex`) and page 2 (`pageNo`),
while the hidden pager field of page 1 reports 2 total pages. -/
def site0 : Site := fun url =>
  if url = "B&pageIndex=1" then
    .ok ⟨true, ["m1"], ["P"], some "(1/2 페이지)", []⟩
  else if url = "B&pageIndex=2" then
    .ok ⟨false, [], [], none, []⟩
  else if url = "B&pageNo=2" then
    .ok ⟨true, ["m2"], ["P"], none, []⟩
  else .error "HTTP 404"

/-! ### Fetch client (`fetch`) -/

/-- Outcome of the primary request of one attempt of `fetch` (the
`SESSION.get` + `raise_for_status` pair): a successful body, a
transport-level fault, or the cache-deserialization `TypeError`. -/
inductive AttemptOutcome where
  | ok (body : String)
  | fault (e : String)
  | typeErr (e : String)
deriving DecidableEq

/-- Outcome of the extra cache-bypassing request performed inside the
`except TypeError` handler. -/
inductive RecoverOutcome where
  | ok (body : String)
  | fault (e : String)
deriving DecidableEq

/-- Observable result of one `fetch` call: the returned body or the
raised fault (`none` models re-raising the initial `last_err = None`),
plus how many primary and recovery requests were issued. -/
structure FetchTrace where
  result : Except (Option String) String
  primaryAttempts : Nat
  recoveryAttempts : Nat

/-- The retry loop of `fetch` over the outcomes of successive attempts
(attempt `i` is `outcomes i`, numbered from 1): a success returns at
once; a `TypeError` triggers exactly one uncached recovery request whose
result — body or fault — is final; a fault is recorded and the loop
continues; exhaustion re-raises the last fault. -/
def fetchGo (outcomes : Nat → AttemptOutcome) (recover : Nat → RecoverOutcome) :
    Nat → Nat → Option String → FetchTrace
  | made, 0, lastErr => ⟨.error lastErr, made, 0⟩
  | made, r + 1, _ =>
    match outcomes (made + 1) with
    | .ok body => ⟨.ok body, made + 1, 0⟩
    | .typeErr _ =>
      match recover (made + 1) with
      | .ok body => ⟨.ok body, made + 1, 1⟩
      | .fault f => ⟨.error (some f), made + 1, 1⟩
    | .fault f => fetchGo outcomes recover (made + 1) r (some f)

/-- Constant `RETRY` from the source configuration block. -/
def RETRY : Nat := 3

/-- Model of `fetch(url, retry=retry)`: run the retry loop from a fresh state. -/
def fetchModel (outcomes : Nat → AttemptOutcome) (recover : Nat → RecoverOutcome)
    (retry : Nat) : FetchTrace :=
  fetchGo outcomes recover 0 retry none

/-! ### Concrete scenario data used by the closed witness theorems -/

/-- A collection oracle that raises for bill `b2` and succeeds for every
other bill. -/
def collect0 : CollectOracle := fun bid =>
  if bid = "b2" then .error "boom" else .ok (["u"], ["P"], 1)

/-- A seniority oracle that resolves every member to 2 terms. -/
def sen0 : SenOracle := fun _ _ => some 2

/-- A popup endpoint that behaves uniformly across pages: only the
`pageNo` candidate validates, for pages 1 and 2 alike. -/
def site1 : Site := fun url =>
  if url = "B&pageNo=1" then .ok ⟨true, ["m1"], ["P"], none, []⟩
  else if url = "B&pageNo=2" then .ok ⟨true, ["m2"], ["Q"], none, []⟩
  else .error "HTTP 404"

/-- Attempt outcomes: a transport fault, then a cache `TypeError`, then
faults. -/
def outcomes0 : Nat → AttemptOutcome := fun i =>
  if i = 1 then .fault "f1" else if i = 2 then .typeErr "t" else .fault "f3"

/-- The recovery request always succeeds. -/
def recover0 : Nat → RecoverOutcome := fun _ => .ok "body"

/-! ## Theorems -/

/-- Extraction finds nothing in empty profile text. -/
theorem extractRawSeniority_nil : extractRawSeniority [] = none := by decide

/-- C1: Seniority normalization — for every member profile text and
assembly context, `parse_member_seniority` returns the raw extracted
count minus the number of future session markers found (`제21대` and
`제22대` for context ≤ 20, only `제22대` for context 21, none for
context ≥ 22), clamped below at 1; in particular context 20 with raw 3
and both markers gives 1, context 21 with raw 1 and the next marker
gives 1 (clamped from 0), and context 22 with raw 2 and any markers
gives 2. -/
theorem claim_C1_seniority_normalization
    (page : MemberPage) (base : Int) (raw : Nat)
    (hraw : extractRawSeniority (selectProfileText page) = some raw) :
    (parse_member_seniority (.ok page) base =
      some (max 1 ((raw : Int) -
        ((if base ≤ 20 then
            (if containsSub "제21대".data (selectProfileText page) then 1 else 0) +
            (if containsSub "제22대".data (selectProfileText page) then 1 else 0)
          else if base = 21 then
            (if containsSub "제22대".data (selectProfileText page) then 1 else 0)
          else 0 : Nat) : Int)))) ∧
    parse_member_seniority (.ok ⟨some "3선 제21대 제22대".data, none⟩) 20 = some 1 ∧
    parse_member_seniority (.ok ⟨some "초선 제22대".data, none⟩) 21 = some 1 ∧
    parse_member_seniority (.ok ⟨some "재선 제21대 제22대".data, none⟩) 22 = some 2 := by
  refine ⟨?_, by decide, by decide, by decide⟩
  have h0 : ¬ (selectProfileText page).isEmpty = true := by
    intro h
    rw [List.isEmpty_iff.mp h, extractRawSeniority_nil] at hraw
    exact Option.noConfusion hraw
  simp only [parse_member_seniority, if_neg h0, seniorityFromText, hraw, futureTerms]
  congr 1
  split_ifs <;> omega

/-- Witness for C1 at a concrete profile text. -/
theorem claim_C1_witness :
    parse_member_seniority (.ok ⟨some "4선 제21대".data, none⟩) 20 = some 3 := by
  have h := (claim_C1_seniority_normalization ⟨some "4선 제21대".data, none⟩ 20 4
    (by decide)).1
  rw [h]
  decide

/-- C2: whenever `parse_member_seniority` returns a present value, that
value is at least 1, whatever the fetched page and context. -/
theorem claim_C2_seniority_at_least_one
    (fetched : Except String MemberPage) (base : Int) (v : Int)
    (h : parse_member_seniority fetched base = some v) : 1 ≤ v := by
  cases fetched with
  | error e => exact Option.noConfusion h
  | ok p =>
    simp only [parse_member_seniority] at h
    by_cases he : (selectProfileText p).isEmpty = true
    · rw [if_pos he] at h
      exact Option.noConfusion h
    · rw [if_neg he] at h
      unfold seniorityFromText at h
      cases hex : extractRawSeniority (selectProfileText p) with
      | none => rw [hex] at h; exact Option.noConfusion h
      | some raw =>
        rw [hex] at h
        simp only [Option.some.injEq] at h
        rw [← h]
        split_ifs <;> omega

/-- Witness for C2 at a concrete profile text. -/
theorem claim_C2_witness :
    parse_member_seniority (.ok ⟨some "초선".data, none⟩) 21 = some 1 ∧ (1 : Int) ≤ 1 :=
  ⟨by decide, claim_C2_seniority_at_least_one (.ok ⟨some "초선".data, none⟩) 21 1 (by decide)⟩

/-- The bill id of a produced record is the input id, in both
branches of `process_one_bill`. -/
theorem process_one_bill_bill_id (collect : CollectOracle) (sen : SenOracle)
    (bid : String) (base : Int) :
    (process_one_bill collect sen bid base).bill_id = bid := by
  unfold process_one_bill
  cases collect bid with
  | error e => rfl
  | ok t => rcases t with ⟨links, parties, num⟩; rfl

/-- C3: the driver emits exactly one record per input identifier, in
input order; an exception from the collection step is caught inside
`process_one_bill`, which returns a record with absent metrics plus the
error message, so later bills are processed independently and the row
count always equals the input count. -/
theorem claim_C3_one_record_per_bill
    (collect : CollectOracle) (sen : SenOracle) (ids : List String) :
    (runPipeline collect sen ids).map (fun r => r.bill_id) = ids ∧
    (runPipeline collect sen ids).length = ids.length ∧
    (∀ i, (runPipeline collect sen ids)[i]? =
      ids[i]?.map (fun bid => process_one_bill collect sen bid (baseAssembly ids i))) ∧
    (∀ bid base e, collect bid = .error e →
      process_one_bill collect sen bid base = ⟨bid, none, none, none, some e⟩) := by
  refine ⟨?_, ?_, ?_, ?_⟩
  · rw [runPipeline, List.map_map]
    have hcomp : ((fun r : BillRecord => r.bill_id) ∘ fun p : Nat × String =>
        process_one_bill collect sen p.2 (baseAssembly ids p.1)) =
        (Prod.snd : Nat × String → String) := by
      funext p
      exact process_one_bill_bill_id collect sen p.2 (baseAssembly ids p.1)
    rw [hcomp, List.enum_map_snd]
  · rw [runPipeline, List.length_map, List.enum_length]
  · intro i
    rw [runPipeline, List.getElem?_map, List.getElem?_enum, Option.map_map]
    rfl
  · intro bid base e h
    unfold process_one_bill
    rw [h]

/-- Witness for C3: a two-bill run where the second bill's collection
raises. -/
theorem claim_C3_witness :
    (runPipeline collect0 sen0 ["b1", "b2"]).map (fun r => r.bill_id) = ["b1", "b2"] ∧
    process_one_bill collect0 sen0 "b2" 20 = ⟨"b2", none, none, none, some "boom"⟩ := by
  have h := claim_C3_one_record_per_bill collect0 sen0 ["b1", "b2"]
  exact ⟨h.1, h.2.2.2 "b2" 20 "boom" rfl⟩

/-- Helper: `List.findIdx` returns the position of the first element satisfying
the predicate. -/
theorem findIdx_eq_of_first (p : String → Bool) (l : List String) :
    ∀ (j : Nat) (hj : j < l.length),
      p (l.get ⟨j, hj⟩) = true →
      (∀ k (hk : k < j), p (l.get ⟨k, hk.trans hj⟩) = false) →
      l.findIdx p = j := by
  induction l with
  | nil => intro j hj _ _; simp at hj
  | cons a t ih =>
    intro j hj h1 h2
    cases j with
    | zero =>
      rw [List.findIdx_cons]
      simp only [List.get] at h1
      rw [h1]
      rfl
    | succ j' =>
      have ha : p a = false := h2 0 (Nat.succ_pos j')
      rw [List.findIdx_cons, ha]
      show t.findIdx p + 1 = j' + 1
      have hj' : j' < t.length := by simpa using hj
      have := ih j' hj' (by simpa using h1)
        (fun k hk => by simpa using h2 (k + 1) (by omega))
      omega

/-- Helper: `List.findIdx` returns the length when nothing satisfies the
predicate. -/
theorem findIdx_eq_length_of_all_false (p : String → Bool) (l : List String)
    (h : ∀ x ∈ l, p x = false) : l.findIdx p = l.length := by
  induction l with
  | nil => rfl
  | cons a t ih =>
    rw [List.findIdx_cons, h a (List.mem_cons_self a t)]
    show t.findIdx p + 1 = t.length + 1
    rw [ih (fun x hx => h x (List.mem_cons_of_mem a hx))]

/-- C6: assembly contexts are assigned positionally — identifiers
strictly before the first occurrence of `FIRST_21_BILL_ID` get context
20, identifiers at or after it get 21, and when the cutover id is
missing every identifier gets 20. -/
theorem claim_C6_assembly_context (ids : List String) :
    (∀ j (hj : j < ids.length), ids.get ⟨j, hj⟩ = FIRST_21_BILL_ID →
      (∀ k (hk : k < j), ids.get ⟨k, hk.trans hj⟩ ≠ FIRST_21_BILL_ID) →
      ∀ i, baseAssembly ids i = if i < j then 20 else 21) ∧
    (FIRST_21_BILL_ID ∉ ids → ∀ i, i < ids.length → baseAssembly ids i = 20) := by
  constructor
  · intro j hj h1 h2 i
    have hfi : ids.findIdx (fun b => b == FIRST_21_BILL_ID) = j := by
      apply findIdx_eq_of_first _ _ j hj
      · simpa using h1
      · intro k hk
        simpa using h2 k hk
    unfold baseAssembly
    rw [hfi]
    split_ifs <;> omega
  · intro hnot i hi
    have hfi : ids.findIdx (fun b => b == FIRST_21_BILL_ID) = ids.length := by
      apply findIdx_eq_length_of_all_false
      intro x hx
      simp only [beq_eq_false_iff_ne, ne_eq]
      intro he
      exact hnot (he ▸ hx)
    unfold baseAssembly
    rw [hfi, if_neg (by omega)]

/-- Witness for C6 at a concrete three-bill list with the cutover id in
the middle. -/
theorem claim_C6_witness :
    baseAssembly ["x", FIRST_21_BILL_ID, "y"] 0 = 20 ∧
    baseAssembly ["x", FIRST_21_BILL_ID, "y"] 2 = 21 := by
  have h := (claim_C6_assembly_context ["x", FIRST_21_BILL_ID, "y"]).1 1 (by decide)
    (by decide) (by intro k hk
                    have hk0 : k = 0 := (by omega)
                    subst hk0
                    have hx : (["x", FIRST_21_BILL_ID, "y"].get
                        ⟨0, by decide⟩) ≠ FIRST_21_BILL_ID := (by decide)
                    exact hx)
  constructor
  · rw [h 0]; decide
  · rw [h 2]; decide

/-- C4: the average-seniority aggregate is the arithmetic mean of the
resolved values rounded to two decimal places when at least one value is
present, is absent (not zero) on an empty value list, depends only on
the multiset of values, and is exactly what `process_one_bill` stores. -/
theorem claim_C4_average_seniority (collect : CollectOracle) (sen : SenOracle)
    (bid : String) (base : Int) (l l2 : List Int) :
    (l ≠ [] → avgSeniority l = some (round2 ((l.sum : ℚ) / (l.length : ℚ)))) ∧
    avgSeniority [] = none ∧
    (l.Perm l2 → avgSeniority l = avgSeniority l2) ∧
    (∀ links parties num, collect bid = .ok (links, parties, num) →
      (process_one_bill collect sen bid base).avg_seniority =
        avgSeniority (links.filterMap (fun url => sen url base))) := by
  refine ⟨?_, rfl, ?_, ?_⟩
  · intro h
    cases l with
    | nil => exact absurd rfl h
    | cons a t => rfl
  · intro hp
    cases l with
    | nil =>
      rw [hp.symm.eq_nil]
    | cons a t =>
      cases l2 with
      | nil => exact absurd hp.eq_nil (by simp)
      | cons b t2 =>
        simp only [avgSeniority]
        rw [hp.sum_eq, hp.length_eq]
        rfl
  · intro links parties num h
    unfold process_one_bill
    rw [h]

/-- Witness for C4: a concrete two-value list, the empty list, and a
transposition. -/
theorem claim_C4_witness :
    ([1, 2] : List Int) ≠ [] ∧
    avgSeniority [1, 2] =
      some (round2 ((([1, 2] : List Int).sum : ℚ) / (([1, 2] : List Int).length : ℚ))) ∧
    avgSeniority [] = none ∧
    avgSeniority [1, 2] = avgSeniority [2, 1] := by
  have h := claim_C4_average_seniority collect0 sen0 "b1" 20 ([1, 2] : List Int) [2, 1]
  exact ⟨by decide, h.1 (by decide), h.2.1, h.2.2.1 (List.Perm.swap 2 1 [])⟩

/-- Totality of the code-point lexicographic comparison. -/
theorem lexLe_total : ∀ as bs : List Char, lexLe as bs = true ∨ lexLe bs as = true := by
  intro as
  induction as with
  | nil => intro bs; left; rfl
  | cons a as ih =>
    intro bs
    cases bs with
    | nil => right; rfl
    | cons b bs' =>
      by_cases hab : a = b
      · subst hab
        rcases ih bs' with h | h
        · left; simpa [lexLe] using h
        · right; simpa [lexLe] using h
      · rcases lt_or_gt_of_ne hab with h | h
        · left; simp [lexLe, hab, h]
        · right; simp [lexLe, Ne.symm hab, h]

/-- Transitivity of the code-point lexicographic comparison. -/
theorem lexLe_trans : ∀ as bs cs : List Char,
    lexLe as bs = true → lexLe bs cs = true → lexLe as cs = true := by
  intro as
  induction as with
  | nil => intro bs cs _ _; rfl
  | cons a as ih =>
    intro bs cs h1 h2
    cases bs with
    | nil => simp [lexLe] at h1
    | cons b bs' =>
      cases cs with
      | nil => simp [lexLe] at h2
      | cons c cs' =>
        simp only [lexLe] at h1 h2 ⊢
        by_cases hab : a = b
        · subst hab
          by_cases hbc : a = c
          · subst hbc
            rw [if_pos rfl] at h1 h2 ⊢
            exact ih bs' cs' h1 h2
          · rw [if_pos rfl] at h1
            rw [if_neg hbc] at h2 ⊢
            exact h2
        · by_cases hbc : b = c
          · subst hbc
            rw [if_neg hab] at h1 ⊢
            exact h1
          · rw [if_neg hab] at h1
            rw [if_neg hbc] at h2
            have hac : a < c :=
              lt_trans (of_decide_eq_true h1) (of_decide_eq_true h2)
            rw [if_neg (ne_of_lt hac)]
            exact decide_eq_true hac

/-- Antisymmetry of the code-point lexicographic comparison. -/
theorem lexLe_antisymm : ∀ as bs : List Char,
    lexLe as bs = true → lexLe bs as = true → as = bs := by
  intro as
  induction as with
  | nil =>
    intro bs _ h2
    cases bs with
    | nil => rfl
    | cons b bs' => simp [lexLe] at h2
  | cons a as ih =>
    intro bs h1 h2
    cases bs with
    | nil => simp [lexLe] at h1
    | cons b bs' =>
      simp only [lexLe] at h1 h2
      by_cases hab : a = b
      · subst hab
        rw [if_pos rfl] at h1 h2
        rw [ih bs' h1 h2]
      · rw [if_neg hab] at h1
        rw [if_neg (Ne.symm hab)] at h2
        exact absurd (of_decide_eq_true h2) (asymm (of_decide_eq_true h1))

/-- Membership in the party set: exactly the non-empty labels that
occur. -/
theorem mem_uniqueParties (l : List String) (s : String) :
    s ∈ uniqueParties l ↔ (s ∈ l ∧ s ≠ "") := by
  unfold uniqueParties
  rw [List.mem_insertionSort, List.mem_dedup, List.mem_filter]
  simp [bne_iff_ne]

/-- C5: the party set is the sorted list of distinct non-empty labels,
hence independent of order and multiplicity of the observed labels; in
particular `["A","B","A"]` yields `["A","B"]`. -/
theorem claim_C5_party_set (l1 l2 : List String)
    (hmem : ∀ s, s ∈ l1 ↔ s ∈ l2) :
    uniqueParties l1 = uniqueParties l2 ∧
    (∀ s, s ∈ uniqueParties l1 ↔ (s ∈ l1 ∧ s ≠ "")) ∧
    uniqueParties ["A", "B", "A"] = ["A", "B"] := by
  haveI : IsTotal String strLe := ⟨fun a b => lexLe_total a.data b.data⟩
  haveI : IsTrans String strLe := ⟨fun a b c => lexLe_trans a.data b.data c.data⟩
  haveI : IsAntisymm String strLe :=
    ⟨fun a b h1 h2 => by
      cases a with
      | mk da =>
        cases b with
        | mk db => exact congrArg String.mk (lexLe_antisymm da db h1 h2)⟩
  refine ⟨?_, fun s => mem_uniqueParties l1 s, by decide⟩
  have nd1 : (uniqueParties l1).Nodup :=
    ((List.perm_insertionSort strLe _).nodup_iff).mpr (List.nodup_dedup _)
  have nd2 : (uniqueParties l2).Nodup :=
    ((List.perm_insertionSort strLe _).nodup_iff).mpr (List.nodup_dedup _)
  have hp : (uniqueParties l1).Perm (uniqueParties l2) := by
    rw [List.perm_ext_iff_of_nodup nd1 nd2]
    intro a
    rw [mem_uniqueParties, mem_uniqueParties, hmem a]
  exact List.eq_of_perm_of_sorted hp
    (List.sorted_insertionSort strLe _) (List.sorted_insertionSort strLe _)

/-- Witness for C5: the same label multiset in two different
presentations. -/
theorem claim_C5_witness :
    uniqueParties ["B", "A", "A"] = uniqueParties ["A", "B"] :=
  (claim_C5_party_set ["B", "A", "A"] ["A", "B"]
    (by intro s
        simp only [List.mem_cons, List.not_mem_nil, or_false]
        tauto)).1

/-- A left fold of `Nat.max` lands on the seed or on a list element. -/
theorem foldl_max_mem (ms : List Nat) : ∀ m : Nat,
    ms.foldl Nat.max m = m ∨ ms.foldl Nat.max m ∈ ms := by
  induction ms with
  | nil => intro m; left; rfl
  | cons b bs ih =>
    intro m
    rw [List.foldl_cons]
    rcases ih (Nat.max m b) with h | h
    · rcases Nat.le_total b m with hc | hc
      · left
        rw [h]
        unfold Nat.max
        exact max_eq_left hc
      · right
        have hb : Nat.max m b = b := by unfold Nat.max; exact max_eq_right hc
        rw [h, hb]
        exact List.mem_cons_self b bs
    · right; exact List.mem_cons_of_mem b h

/-- A left fold of `Nat.max` bounds the seed and every list element. -/
theorem le_foldl_max (ms : List Nat) : ∀ m : Nat,
    m ≤ ms.foldl Nat.max m ∧ ∀ x ∈ ms, x ≤ ms.foldl Nat.max m := by
  induction ms with
  | nil => intro m; exact ⟨le_refl m, by simp⟩
  | cons b bs ih =>
    intro m
    rw [List.foldl_cons]
    rcases ih (Nat.max m b) with ⟨h1, h2⟩
    refine ⟨le_trans (Nat.le_max_left m b) h1, ?_⟩
    intro x hx
    rcases List.mem_cons.mp hx with hxb | hxbs
    · rw [hxb]; exact le_trans (Nat.le_max_right m b) h1
    · exact h2 x hxbs

/-- C8: the derived total page count is the hidden pager field's value
when it matches the pages pattern; otherwise it is the maximum page
number referenced by the navigation links; and it defaults to 1 when
the hidden field and the navigation links are both absent. -/
theorem claim_C8_total_pages (p : PopupPage) :
    (∀ v n, p.pagerHidden = some v → searchPagesPattern v.data = some n →
      parse_total_pages p = n) ∧
    ((p.pagerHidden = none ∨
        ∃ v, p.pagerHidden = some v ∧ searchPagesPattern v.data = none) →
      navNums p ≠ [] →
      parse_total_pages p ∈ navNums p ∧ ∀ m ∈ navNums p, m ≤ parse_total_pages p) ∧
    (p.pagerHidden = none → p.navOnclicks = [] → parse_total_pages p = 1) := by
  refine ⟨?_, ?_, ?_⟩
  · intro v n hv hs
    simp [parse_total_pages, hv, hs]
  · intro hcase hnav
    have hnone : (match p.pagerHidden with
        | some v => searchPagesPattern v.data
        | none => none) = none := by
      rcases hcase with h | ⟨v, hv, hs⟩
      · rw [h]
      · rw [hv]; exact hs
    cases hn : navNums p with
    | nil => exact absurd hn hnav
    | cons m ms =>
      have hval : parse_total_pages p = ms.foldl Nat.max m := by
        simp [parse_total_pages, hnone, hn]
      constructor
      · rw [hval]
        rcases foldl_max_mem ms m with h | h
        · rw [h]; exact List.mem_cons_self m ms
        · exact List.mem_cons_of_mem m h
      · intro x hx
        rw [hval]
        rcases List.mem_cons.mp hx with hxm | hxms
        · rw [hxm]; exact (le_foldl_max ms m).1
        · exact (le_foldl_max ms m).2 x hxms
  · intro h1 h2
    have hn : navNums p = [] := by
      unfold navNums
      rw [h2]
      rfl
    simp [parse_total_pages, h1, hn]

/-- Witness for C8: a page with a matching hidden field, a page with
only navigation links, and a bare page. -/
theorem claim_C8_witness :
    parse_total_pages ⟨true, [], [], some "(3/17 페이지)", ["fnSearch(2)"]⟩ = 17 ∧
    parse_total_pages ⟨true, [], [], none, ["fnSearch(2)", "fnSearch(5)"]⟩ ∈
      navNums ⟨true, [], [], none, ["fnSearch(2)", "fnSearch(5)"]⟩ ∧
    parse_total_pages ⟨true, [], [], none, []⟩ = 1 := by
  refine ⟨?_, ?_, ?_⟩
  · exact (claim_C8_total_pages ⟨true, [], [], some "(3/17 페이지)", ["fnSearch(2)"]⟩).1
      "(3/17 페이지)" 17 rfl (by decide)
  · exact ((claim_C8_total_pages ⟨true, [], [], none, ["fnSearch(2)", "fnSearch(5)"]⟩).2.1
      (Or.inl rfl) (by decide)).1
  · exact (claim_C8_total_pages ⟨true, [], [], none, []⟩).2.2 rfl rfl

/-- Appending on the right preserves having a given string as a leading
segment. -/
theorem append_tail_extend (b a t : String) (h : ∃ t0, a = b ++ t0) :
    ∃ t1, a ++ t = b ++ t1 := by
  obtain ⟨t0, h0⟩ := h
  exact ⟨t0 ++ t, by rw [h0, String.append_assoc]⟩

/-- C9 counterexample: the popup locator does not always produce a
PopupReference — when the detail-page fetch itself raises (after its
retries are exhausted), the exception propagates and no URL is built. -/
theorem claim_C9_counterexample :
    ¬ (∀ (bid : String) (fetched : Except String DetailPage),
        ∃ url, build_proposer_popup_url_from_detail bid fetched = .ok url) := by
  intro hall
  obtain ⟨url, hurl⟩ := hall "B1" (.error "timeout")
  exact Except.noConfusion hurl

/-- C9 (amended): a detail-fetch exception propagates out of the popup
locator unchanged; given a successfully fetched detail page the locator
always produces a URL extending the minimal bill-id URL, and produces
exactly the minimal URL both when the script-call anchor is absent and
when the anchor is present but its `billNo` / `billName` parameters are
unfound or empty. -/
theorem claim_C9_popup_url_amended (bid : String) (e : String) (page : DetailPage) :
    build_proposer_popup_url_from_detail bid (.error e) = .error e ∧
    (∃ tail, build_proposer_popup_url_from_detail bid (.ok page) =
        .ok (popupBase bid ++ tail)) ∧
    (page.onclick = none →
      build_proposer_popup_url_from_detail bid (.ok page) = .ok (popupBase bid)) ∧
    (∀ oc, page.onclick = some oc →
      (searchBillNo oc).getD "" = "" → (searchBillName oc).getD "" = "" →
      build_proposer_popup_url_from_detail bid (.ok page) = .ok (popupBase bid)) := by
  obtain ⟨o⟩ := page
  refine ⟨rfl, ?_, ?_, ?_⟩
  · have hstr : ∃ tail, build_popup_url_from_page bid ⟨o⟩ = popupBase bid ++ tail := by
      cases o with
      | none => exact ⟨"", (String.append_empty _).symm⟩
      | some s =>
        dsimp only [build_popup_url_from_page]
        split_ifs
        all_goals first
          | exact ⟨"", (String.append_empty _).symm⟩
          | exact append_tail_extend _ _ _
              (append_tail_extend _ _ _ ⟨"", (String.append_empty _).symm⟩)
          | exact append_tail_extend _ _ _ (append_tail_extend _ _ _
              (append_tail_extend _ _ _
                (append_tail_extend _ _ _ ⟨"", (String.append_empty _).symm⟩)))
    obtain ⟨t, ht⟩ := hstr
    exact ⟨t, by dsimp only [build_proposer_popup_url_from_detail]; rw [ht]⟩
  · intro h
    cases o with
    | none => rfl
    | some s => exact Option.noConfusion h
  · intro oc hoc hno hnm
    cases o with
    | none => exact Option.noConfusion hoc
    | some s =>
      obtain rfl : s = oc := Option.some.inj hoc
      dsimp only [build_proposer_popup_url_from_detail, build_popup_url_from_page]
      rw [hno, hnm]
      simp

/-- Witness for the amended C9: a propagated fetch fault, a page with
no proposer anchor, and a page whose anchor carries no parameters. -/
theorem claim_C9_witness :
    build_proposer_popup_url_from_detail "B1" (.error "timeout") = .error "timeout" ∧
    build_proposer_popup_url_from_detail "B1" (.ok ⟨none⟩) = .ok (popupBase "B1") ∧
    build_proposer_popup_url_from_detail "B1"
      (.ok ⟨some "Navigation.bill.popup.billProposer"⟩) = .ok (popupBase "B1") := by
  have h1 := claim_C9_popup_url_amended "B1" "timeout" ⟨none⟩
  have h2 := claim_C9_popup_url_amended "B1" "timeout"
    ⟨some "Navigation.bill.popup.billProposer"⟩
  exact ⟨h1.1, h1.2.2.1 rfl,
    h2.2.2.2 "Navigation.bill.popup.billProposer" rfl (by decide) (by decide)⟩

/-- The first candidate produced by the probe loop is the first
candidate whose probe validates. -/
theorem findSome?_candidates_fst (site : Site) (base : String) (page : Nat) :
    ∀ cl : List String,
      (cl.findSome?
        (fun c => (fetchValid site (pageURL base c page)).map (fun s => (c, s)))).map
        Prod.fst =
      cl.find? (fun c => candValid site base c page) := by
  intro cl
  induction cl with
  | nil => rfl
  | cons c cs ih =>
    rw [List.findSome?_cons]
    simp only [List.find?]
    cases hf : fetchValid site (pageURL base c page) with
    | none =>
      have hcv : candValid site base c page = false := by
        unfold candValid
        rw [hf]
        rfl
      rw [hcv]
      simpa using ih
    | some s =>
      have hcv : candValid site base c page = true := by
        unfold candValid
        rw [hf]
        rfl
      rw [hcv]
      simp

/-- Characterization: `chosenParam` is a first-match search over the candidate list for
the given page number. -/
theorem chosenParam_eq_find? (site : Site) (base : String) (page : Nat) :
    chosenParam site base page =
      PAGE_PARAM_CANDIDATES.find? (fun c => candValid site base c page) := by
  unfold chosenParam findValidCandidate
  exact findSome?_candidates_fst site base page PAGE_PARAM_CANDIDATES

/-- Helper: `List.find?` only depends on the predicate's values on the list. -/
theorem find?_congr_on (p q : String → Bool) :
    ∀ cl : List String, (∀ c ∈ cl, p c = q c) → cl.find? p = cl.find? q := by
  intro cl
  induction cl with
  | nil => intro _; rfl
  | cons c cs ih =>
    intro h
    have hc := h c (List.mem_cons_self c cs)
    by_cases hp : p c = true
    · rw [List.find?_cons_of_pos _ hp, List.find?_cons_of_pos _ (hc ▸ hp)]
    · have hq : ¬ q c = true := by rw [← hc]; exact hp
      rw [List.find?_cons_of_neg _ hp, List.find?_cons_of_neg _ hq]
      exact ih (fun x hx => h x (List.mem_cons_of_mem c hx))

/-- C7 counterexample: it is not the case that every page 2..totalPages
is fetched with the same pagination parameter that page-1 discovery
validated — `site0` validates `pageIndex` on page 1 but `pageNo` on
page 2. -/
theorem claim_C7_counterexample :
    ¬ (∀ (site : Site) (base : String) (p : Nat),
        2 ≤ p → p ≤ totalPagesFor site base →
        chosenParam site base p = chosenParam site base 1) := by
  intro hall
  have h := hall site0 "B" 2 (by omega) (by decide)
  exact absurd h (by decide)

/-- C7 (amended): the scraper re-runs the candidate loop for every
page — the parameter used for page `p` is the first candidate whose
probe at page `p` validates; when every candidate's validity at page
`p` agrees with its validity at page 1 (a site with uniform pagination
behaviour), page `p` uses the same parameter as page 1. -/
theorem claim_C7_amended_rediscovery (site : Site) (base : String) (p : Nat)
    (h : ∀ c ∈ PAGE_PARAM_CANDIDATES,
      candValid site base c p = candValid site base c 1) :
    chosenParam site base p =
      PAGE_PARAM_CANDIDATES.find? (fun c => candValid site base c p) ∧
    chosenParam site base p = chosenParam site base 1 := by
  refine ⟨chosenParam_eq_find? site base p, ?_⟩
  rw [chosenParam_eq_find? site base p, chosenParam_eq_find? site base 1]
  exact find?_congr_on _ _ PAGE_PARAM_CANDIDATES h

/-- Witness for the amended C7 at a uniformly-behaving site. -/
theorem claim_C7_amended_witness :
    chosenParam site1 "B" 2 = chosenParam site1 "B" 1 :=
  (claim_C7_amended_rediscovery site1 "B" 2 (by decide)).2

/-- The retry loop never issues more primary requests than it has
attempts left. -/
theorem fetchGo_primaryAttempts_le (outcomes : Nat → AttemptOutcome)
    (recover : Nat → RecoverOutcome) :
    ∀ (r made : Nat) (le : Option String),
      (fetchGo outcomes recover made r le).primaryAttempts ≤ made + r := by
  intro r
  induction r with
  | zero => intro made le; simp [fetchGo]
  | succ r ih =>
    intro made le
    cases ho : outcomes (made + 1) with
    | ok body => simp [fetchGo, ho]
    | typeErr e =>
      cases hr : recover (made + 1) with
      | ok b => simp [fetchGo, ho, hr]
      | fault f => simp [fetchGo, ho, hr]
    | fault f =>
      have := ih (made + 1) (some f)
      simp only [fetchGo, ho]
      omega

/-- When every remaining attempt faults, the loop exhausts all of them
and re-raises the fault of the last attempt. -/
theorem fetchGo_all_faults (outcomes : Nat → AttemptOutcome)
    (recover : Nat → RecoverOutcome) :
    ∀ (r made : Nat) (le : Option String), 1 ≤ r →
      (∀ i, made < i → i ≤ made + r → ∃ f, outcomes i = .fault f) →
      ∃ f, outcomes (made + r) = .fault f ∧
        fetchGo outcomes recover made r le = ⟨.error (some f), made + r, 0⟩ := by
  intro r
  induction r with
  | zero => intro made le h _; exact absurd h (by omega)
  | succ r ih =>
    intro made le _ hf
    obtain ⟨f1, hf1⟩ := hf (made + 1) (by omega) (by omega)
    cases r with
    | zero =>
      refine ⟨f1, hf1, ?_⟩
      simp [fetchGo, hf1]
    | succ r' =>
      obtain ⟨f, hf2, hres⟩ := ih (made + 1) (some f1) (by omega)
        (fun i h1 h2 => hf i (by omega) (by omega))
      have harith : made + 1 + (r' + 1) = made + (r' + 1 + 1) := by omega
      rw [harith] at hf2 hres
      refine ⟨f, hf2, ?_⟩
      simp only [fetchGo, hf1]
      exact hres

/-- A successful attempt returns at once, after exactly the faults that
preceded it. -/
theorem fetchGo_success (outcomes : Nat → AttemptOutcome)
    (recover : Nat → RecoverOutcome) :
    ∀ (r made : Nat) (le : Option String) (k : Nat) (body : String),
      made < k → k ≤ made + r → outcomes k = .ok body →
      (∀ i, made < i → i < k → ∃ f, outcomes i = .fault f) →
      fetchGo outcomes recover made r le = ⟨.ok body, k, 0⟩ := by
  intro r
  induction r with
  | zero => intro made le k body h1 h2 _ _; omega
  | succ r ih =>
    intro made le k body h1 h2 hk hfaults
    by_cases hkm : k = made + 1
    · subst hkm
      simp [fetchGo, hk]
    · obtain ⟨f1, hf1⟩ := hfaults (made + 1) (by omega) (by omega)
      simp only [fetchGo, hf1]
      exact ih (made + 1) (some f1) k body (by omega) (by omega) hk
        (fun i hi1 hi2 => hfaults i (by omega) hi2)

/-- A cache `TypeError` attempt hands control to the single recovery
request, whose outcome — body or propagated fault — is final. -/
theorem fetchGo_typeErr (outcomes : Nat → AttemptOutcome)
    (recover : Nat → RecoverOutcome) :
    ∀ (r made : Nat) (le : Option String) (k : Nat) (e : String),
      made < k → k ≤ made + r → outcomes k = .typeErr e →
      (∀ i, made < i → i < k → ∃ f, outcomes i = .fault f) →
      fetchGo outcomes recover made r le =
        (match recover k with
         | .ok body => ⟨.ok body, k, 1⟩
         | .fault f => ⟨.error (some f), k, 1⟩) := by
  intro r
  induction r with
  | zero => intro made le k e h1 h2 _ _; omega
  | succ r ih =>
    intro made le k e h1 h2 hk hfaults
    by_cases hkm : k = made + 1
    · subst hkm
      simp [fetchGo, hk]
    · obtain ⟨f1, hf1⟩ := hfaults (made + 1) (by omega) (by omega)
      simp only [fetchGo, hf1]
      exact ih (made + 1) (some f1) k e (by omega) (by omega) hk
        (fun i hi1 hi2 => hfaults i (by omega) hi2)

/-- C10: `fetch` makes at most `retry` primary attempts (`RETRY = 3` in
the source configuration); when every attempt faults it raises the
fault of the last attempt; a successful attempt returns at once; and a
cache-deserialization `TypeError` triggers exactly one extra uncached
request outside the retry bound whose result — body or fault — is
final. -/
theorem claim_C10_fetch_retry (outcomes : Nat → AttemptOutcome)
    (recover : Nat → RecoverOutcome) (retry : Nat) :
    RETRY = 3 ∧
    (fetchModel outcomes recover retry).primaryAttempts ≤ retry ∧
    (1 ≤ retry → (∀ i, 1 ≤ i → i ≤ retry → ∃ f, outcomes i = .fault f) →
      ∃ f, outcomes retry = .fault f ∧
        fetchModel outcomes recover retry = ⟨.error (some f), retry, 0⟩) ∧
    (∀ k body, 1 ≤ k → k ≤ retry → outcomes k = .ok body →
      (∀ i, 1 ≤ i → i < k → ∃ f, outcomes i = .fault f) →
      fetchModel outcomes recover retry = ⟨.ok body, k, 0⟩) ∧
    (∀ k e, 1 ≤ k → k ≤ retry → outcomes k = .typeErr e →
      (∀ i, 1 ≤ i → i < k → ∃ f, outcomes i = .fault f) →
      (∀ body, recover k = .ok body →
        fetchModel outcomes recover retry = ⟨.ok body, k, 1⟩) ∧
      (∀ f, recover k = .fault f →
        fetchModel outcomes recover retry = ⟨.error (some f), k, 1⟩)) := by
  refine ⟨rfl, ?_, ?_, ?_, ?_⟩
  · have h := fetchGo_primaryAttempts_le outcomes recover retry 0 none
    simpa [fetchModel] using h
  · intro hr hf
    have h := fetchGo_all_faults outcomes recover retry 0 none hr
      (fun i h1 h2 => hf i (by omega) (by omega))
    simpa [fetchModel] using h
  · intro k body h1 h2 hk hf
    have h := fetchGo_success outcomes recover retry 0 none k body (by omega)
      (by omega) hk (fun i hi1 hi2 => hf i (by omega) hi2)
    simpa [fetchModel] using h
  · intro k e h1 h2 hk hf
    have hmain := fetchGo_typeErr outcomes recover retry 0 none k e (by omega)
      (by omega) hk (fun i hi1 hi2 => hf i (by omega) hi2)
    constructor
    · intro body hb
      unfold fetchModel
      rw [hmain, hb]
    · intro f hb
      unfold fetchModel
      rw [hmain, hb]

/-- Witness for C10: a fault, then a `TypeError` whose recovery request
succeeds on attempt 2 of 3. -/
theorem claim_C10_witness :
    fetchModel outcomes0 recover0 3 = ⟨.ok "body", 2, 1⟩ :=
  ((claim_C10_fetch_retry outcomes0 recover0 3).2.2.2.2 2 "t" (by omega) (by omega)
    (by decide)
    (fun i hi1 hi2 => ⟨"f1", by
      have hi : i = 1 := by omega
      subst hi
      rfl⟩)).1 "body" rfl

end Seniority
